import Mathlib

/-!
Verification of the federated full-text search repository
(Express/MongoDB backend `searchController.js` + React client `App.jsx`).

Strings are modelled as `List Char`.  The MongoDB collections are modelled
as in-memory lists of documents; the `$regex`-with-`i` match capability of
the storage layer (an external collaborator per the spec) is a parameter
`rmatch : List Char → List Char → Bool` taking the pattern actually handed
to the source and the field text.  The controller hands the *raw* query
string to the source, exactly as `{ $regex: searchTerm, $options: "i" }`
does in the code.
-/

/-! ## Character and whitespace utilities (JS `trim`, `split(/\s+/)`, case folding) -/

/-- ASCII whitespace, the characters relevant to `String.prototype.trim`
and `/\s+/` for the queries this program handles. -/
def isWs (c : Char) : Bool :=
  c = ' ' || c = '\t' || c = '\n' || c = '\r'

/-- JS `String.prototype.trim`: drop leading and trailing whitespace. -/
def trimWs (s : List Char) : List Char :=
  ((s.dropWhile isWs).reverse.dropWhile isWs).reverse

/-- Split a character list at each whitespace character (empty tokens are
produced at whitespace runs; the caller filters them out, matching the
`.split(/\s+/).filter(t => t.length > 0)` composition in `App.jsx`). -/
def splitWs : List Char → List (List Char)
  | [] => [[]]
  | c :: rest =>
    if isWs c then
      [] :: splitWs rest
    else
      match splitWs rest with
      | [] => [[c]]
      | t :: ts => (c :: t) :: ts

/-- Case-insensitive prefix test: the `i`-flag regex alternative `t`
matches at the head of `text`. -/
def isPrefixCI : List Char → List Char → Bool
  | [], _ => true
  | _ :: _, [] => false
  | c :: cs, d :: ds => (c.toLower = d.toLower) && isPrefixCI cs ds

/-- Case-insensitive whole-string equality: models
`new RegExp(String.append (String.append "^" term) "$", "i").test(part)`
for an escaped (hence literal) `term`. -/
def eqCI (a b : List Char) : Bool :=
  a.length = b.length && isPrefixCI a b

/-! ## Regex escaping (`escapeRegExp` in `App.jsx`) -/

/-- The character class of `term.replace(/[.*+?^$\x7b\x7d()|[\]\\]/g, ...)`. -/
def regexSpecialChars : List Char :=
  ['.', '*', '+', '?', '^', '$', '\x7b', '\x7d', '(', ')', '|', '[', ']', '\\']

/-- `term.replace(/[.*+?^$\x7b\x7d()|[\]\\]/g, '\\$&')`: prefix every special
pattern-matching character with a backslash. -/
def escapeRegExp : List Char → List Char
  | [] => []
  | c :: cs =>
    if regexSpecialChars.contains c then
      '\\' :: c :: escapeRegExp cs
    else
      c :: escapeRegExp cs

/-- A pattern string contains no regex metacharacter that is not preceded
by a backslash: every occurrence of a special character is escaped, so the
pattern denotes literal text. -/
def noUnescapedMeta : List Char → Bool
  | [] => true
  | c :: rest =>
    if c = '\\' then
      match rest with
      | [] => false
      | _ :: rest2 => noUnescapedMeta rest2
    else
      !(regexSpecialChars.contains c) && noUnescapedMeta rest

/-! ## JS stable sort by a descending key

`Array.prototype.sort` with comparator `(a, b) => k(b) - k(a)` is, per the
ECMAScript specification, a stable sort by the key `k` descending.  Both
`App.jsx` (`terms.sort((a, b) => b.length - a.length)`) and
`searchController.js` (`results.sort((a, b) => b.score - a.score)`) use
this shape, so it is modelled once, generically. -/

/-- Insert `a` (which originally preceded every element of `l`) into the
descending-by-`k` sorted list `l`, skipping only elements with a strictly
larger key, so equal keys keep `a` first (stability). -/
def insertDescBy {α : Type} {β : Type} [LinearOrder β] (k : α → β) (a : α) :
    List α → List α
  | [] => [a]
  | b :: l => if k a < k b then b :: insertDescBy k a l else a :: b :: l

/-- Stable insertion sort by key `k`, descending: the model of
`Array.prototype.sort((a, b) => k(b) - k(a))`. -/
def sortDescBy {α : Type} {β : Type} [LinearOrder β] (k : α → β) :
    List α → List α
  | [] => []
  | a :: l => insertDescBy k a (sortDescBy k l)

/-! ## Query tokenizer (`App.jsx`, `HighlightedText`) -/

/-- `query.trim().split(/\s+/).filter(t => t.length > 0)`. -/
def jsTokens (query : List Char) : List (List Char) :=
  (splitWs (trimWs query)).filter (fun t => !t.isEmpty)

/-- The tokens of the query, sorted by descending character length:
`...filter(t => t.length > 0).sort((a, b) => b.length - a.length)`. -/
def queryTerms (query : List Char) : List (List Char) :=
  sortDescBy (fun t => t.length) (jsTokens query)

/-- `const safeTerms = terms.map(term => term.replace(/[...]/g, '\\$&'))`. -/
def safeTerms (query : List Char) : List (List Char) :=
  (queryTerms query).map escapeRegExp

/-! ## The split-with-captures used by the highlighter

`text.split(regex)` where `regex = new RegExp("(" ++ safeTerms.join("|") ++ ")", "gi")`
walks `text` left to right; at the leftmost position where some alternative
matches it emits the gap chunk, then the matched substring (the capture
group keeps it in the output), then continues after the match.  Since every
alternative is an escaped literal, an alternative matches at a position iff
the corresponding raw term is a case-insensitive prefix of the remaining
text, and alternation prefers the earliest term in the list. -/

/-- Leftmost match of any (non-empty) term in `text`: returns the match
index and the term matched, trying terms in list order at each index. -/
def findFirst (terms : List (List Char)) : List Char → Option (Nat × List Char)
  | [] => none
  | c :: rest =>
    match terms.find? (fun t => !t.isEmpty && isPrefixCI t (c :: rest)) with
    | some t => some (0, t)
    | none =>
      match findFirst terms rest with
      | some (i, t) => some (i + 1, t)
      | none => none

/-- Fuel-indexed splitter; `fuel` bounds the number of matches and is set
to the text length by `splitOnTerms`, which always suffices because every
match consumes at least one character. -/
def splitAux (terms : List (List Char)) : Nat → List Char → List (List Char)
  | 0, text => [text]
  | fuel + 1, text =>
    match findFirst terms text with
    | none => [text]
    | some (i, t) =>
      text.take i :: (text.drop i).take t.length ::
        splitAux terms fuel (text.drop (i + t.length))

/-- `text.split(regex)` with the single always-participating capture group:
alternating gap chunks and matched substrings (original casing preserved). -/
def splitOnTerms (terms : List (List Char)) (text : List Char) : List (List Char) :=
  splitAux terms text.length text

/-! ## The highlighter (`HighlightedText` in `App.jsx`) -/

/-- One rendered span: a substring of the input text plus whether it is
rendered with the `match-highlight` class. -/
structure Span where
  text : List Char
  isMatch : Bool
deriving DecidableEq

/-- `(part) => safeTerms.some(term => new RegExp(anchored term, "i").test(part))`:
a part is a match iff it equals some term case-insensitively (anchored
regex on an escaped literal). -/
def isMatchPart (terms : List (List Char)) (part : List Char) : Bool :=
  terms.any (fun t => eqCI t part)

/-- The full `HighlightedText` component as a function from `(text, query)`
to the ordered list of spans it renders. -/
def highlightSpans (text query : List Char) : List Span :=
  if text.isEmpty then [⟨[], false⟩]
  else if query.isEmpty then [⟨text, false⟩]
  else
    let terms := queryTerms query
    if terms.isEmpty then [⟨text, false⟩]
    else (splitOnTerms terms text).map (fun part => ⟨part, isMatchPart terms part⟩)

/-- Concatenation of the span texts, in order. -/
def spansJoin (spans : List Span) : List Char :=
  spans.foldr (fun sp acc => sp.text ++ acc) []

/-! ## Backend data model (`models/Product.js`, `models/Article.js`)

Documents as stored in the two collections.  `_id` is modelled by a `Nat`
identifier. -/

/-- A document of the `products` collection. -/
structure ProductDoc where
  id : Nat
  name : List Char
  description : List Char
  category : List Char
  price : Int
deriving DecidableEq

/-- A document of the `articles` collection. -/
structure ArticleDoc where
  id : Nat
  title : List Char
  content : List Char
  author : List Char
  tags : List (List Char)
deriving DecidableEq

/-- The two collections backing the two registered sources. -/
structure Database where
  products : List ProductDoc
  articles : List ArticleDoc
deriving DecidableEq

/-- The document shape returned by
`Product.find(filter, projection)` with projection
`name: 1, description: 1, category: 1, price: 1`: only the listed fields
plus `_id` are present; in particular no `score` field is projected, so
`score` is `none` (JS `undefined`). -/
structure ProjProduct where
  id : Nat
  name : List Char
  description : List Char
  category : List Char
  price : Int
  score : Option Int
deriving DecidableEq

/-- The document shape returned by `Article.find` with projection
`title: 1, content: 1, author: 1, tags: 1`; no `score` field is projected. -/
structure ProjArticle where
  id : Nat
  title : List Char
  content : List Char
  author : List Char
  tags : List (List Char)
  score : Option Int
deriving DecidableEq

/-- Apply the product projection of `searchController.js`. -/
def projectProduct (p : ProductDoc) : ProjProduct :=
  ⟨p.id, p.name, p.description, p.category, p.price, none⟩

/-- Apply the article projection of `searchController.js`. -/
def projectArticle (a : ArticleDoc) : ProjArticle :=
  ⟨a.id, a.title, a.content, a.author, a.tags, none⟩

/-! ## The source query executors (`Product.find` / `Article.find`)

The storage layer's case-insensitive `$regex` evaluator is the parameter
`rmatch pattern fieldText`.  The controller's filter is the `$or` of the
per-field regex conditions, with the pattern being the raw `searchTerm`. -/

/-- The `$or` filter on `name`, `description`, `category`. -/
def matchProduct (rmatch : List Char → List Char → Bool) (pat : List Char)
    (p : ProductDoc) : Bool :=
  rmatch pat p.name || rmatch pat p.description || rmatch pat p.category

/-- The `$or` filter on `title`, `content`, `author`. -/
def matchArticle (rmatch : List Char → List Char → Bool) (pat : List Char)
    (a : ArticleDoc) : Bool :=
  rmatch pat a.title || rmatch pat a.content || rmatch pat a.author

/-- `await Product.find({$or: [...]}, projection)`: filter the collection
in natural (list) order, then project. -/
def findProducts (rmatch : List Char → List Char → Bool) (pat : List Char)
    (db : Database) : List ProjProduct :=
  (db.products.filter (matchProduct rmatch pat)).map projectProduct

/-- `await Article.find({$or: [...]}, projection)`. -/
def findArticles (rmatch : List Char → List Char → Bool) (pat : List Char)
    (db : Database) : List ProjArticle :=
  (db.articles.filter (matchArticle rmatch pat)).map projectArticle

/-! ## Normalization and merge (`searchController.js`, result combination) -/

/-- One element of the combined `results` array, with its `type` label and
the per-source field set. -/
inductive MergedResult where
  | product (id : Nat) (name description category : List Char)
      (price : Int) (score : Int)
  | article (id : Nat) (title content author : List Char)
      (tags : List (List Char)) (score : Int)
deriving DecidableEq

/-- The `score` field of a merged result. -/
def MergedResult.score : MergedResult → Int
  | .product _ _ _ _ _ s => s
  | .article _ _ _ _ _ s => s

/-- `products.map(p => ({type: "product", ..., score: p.score ?? 0}))`:
the nullish-coalescing default applied to the projected (absent) score. -/
def toProductResult (p : ProjProduct) : MergedResult :=
  .product p.id p.name p.description p.category p.price (p.score.getD 0)

/-- `articles.map(a => ({type: "article", ..., score: a.score ?? 0}))`. -/
def toArticleResult (a : ProjArticle) : MergedResult :=
  .article a.id a.title a.content a.author a.tags (a.score.getD 0)

/-- The combined `results` array before sorting: the spread
`[...products.map(...), ...articles.map(...)]`, products first. -/
def mergedResults (rmatch : List Char → List Char → Bool) (q : List Char)
    (db : Database) : List MergedResult :=
  (findProducts rmatch q db).map toProductResult ++
    (findArticles rmatch q db).map toArticleResult

/-- `results.sort((a, b) => b.score - a.score)`: stable sort by score,
highest first. -/
def rankedResults (rmatch : List Char → List Char → Bool) (q : List Char)
    (db : Database) : List MergedResult :=
  sortDescBy MergedResult.score (mergedResults rmatch q db)

/-! ## The HTTP response of `globalSearch` -/

/-- The JSON body and status the controller sends.  `Option` marks field
presence: a field the code does not put in the object is `none`. -/
structure SearchResponse where
  status : Nat
  success : Bool
  count : Option Nat
  query : Option (List Char)
  message : Option (List Char)
  results : Option (List MergedResult)
deriving DecidableEq

/-- The validation message of the 400 response. -/
def requiredMsg : List Char :=
  "Search term is required. Use ?q=your-search-term".data

/-- The message of the zero-result 200 response, with the query quoted. -/
def noResultsMsg (q : List Char) : List Char :=
  "No results found for \"".data ++ q ++ "\"".data

/-- The validation predicate of
`if (!searchTerm || searchTerm.trim() === "")`: the query parameter is
missing, empty, or whitespace-only after trimming. -/
def isBlankQuery : Option (List Char) → Bool
  | none => true
  | some q => q.isEmpty || (trimWs q).isEmpty

/-- The identity of one registered source. -/
inductive SourceId where
  | product
  | article
deriving DecidableEq

/-- The whole `globalSearch` handler as a pure function of the `q` query
parameter and the database.  Besides the response, it returns the list of
source dispatches it performed, each carrying the pattern string actually
handed to the source (the raw `searchTerm`). -/
def globalSearch (rmatch : List Char → List Char → Bool)
    (q? : Option (List Char)) (db : Database) :
    SearchResponse × List (SourceId × List Char) :=
  match q? with
  | none => (⟨400, false, none, none, some requiredMsg, none⟩, [])
  | some q =>
    if q.isEmpty || (trimWs q).isEmpty then
      (⟨400, false, none, none, some requiredMsg, none⟩, [])
    else
      let dispatches := [(SourceId.product, q), (SourceId.article, q)]
      let results := rankedResults rmatch q db
      if results.isEmpty then
        (⟨200, true, some 0, none, some (noResultsMsg q), some []⟩, dispatches)
      else
        (⟨200, true, some results.length, some q, none, some results⟩, dispatches)

/-! ## Dispatch scheduling of the handler

The handler's body is `await Product.find(...)` followed by
`await Article.find(...)`: the article query is constructed and dispatched
only after the product query has completed.  Its dispatch structure is
therefore two sequential stages of one source each; sequential stages add
their latencies, and the sources inside one stage run concurrently, so a
stage costs the maximum of its members. -/

/-- The dispatch stages of `globalSearch`, read off its `await` sequencing:
one stage per `await`, in program order. -/
def dispatchStages : List (List SourceId) := [[SourceId.product], [SourceId.article]]

/-- Total latency of a staged dispatch plan, given each source's latency:
stages are sequential (latencies add); the sources within one stage are
concurrent (a stage costs its slowest member). -/
def stagesLatency (lat : SourceId → Nat) : List (List SourceId) → Nat
  | [] => 0
  | st :: rest => (st.map lat).foldr Nat.max 0 + stagesLatency lat rest

/-- Total latency of the handler's dispatches. -/
def globalSearchLatency (lat : SourceId → Nat) : Nat :=
  stagesLatency lat dispatchStages

/-! ## Client search session controller (`App` in `App.jsx`)

The component's effect behaviour as a state machine.  A state holds the
React state variables plus the pending debounce timer (with the query
value its `performSearch` closure captured) and the history of dispatched
fetches.  Result payloads are opaque (`List Nat` of result identifiers):
the claims about the session controller concern when `setResults` runs,
not the payload contents. -/

/-- JS `query.trim()` on the `String` type used by the session model. -/
def jsTrim (s : String) : String :=
  String.mk (trimWs s.data)

/-- The state of the `App` component between events. -/
structure AppState where
  query : String
  results : List Nat
  isLoading : Bool
  hasSearched : Bool
  error : Bool
  pendingTimer : Option String
  dispatched : List String
deriving DecidableEq

/-- The events driving the component: an input change (the debounce effect
re-runs, its cleanup clearing any previously scheduled timer), the pending
debounce timer firing (`performSearch` starts and the fetch is
dispatched), and a dispatched fetch resolving with data or a transport
error. -/
inductive AppEvent where
  | input (s : String)
  | timerFire
  | resolveOk (q : String) (payload : List Nat)
  | resolveErr (q : String)
deriving DecidableEq

/-- The initial component state (`useState` initializers). -/
def initialAppState : AppState :=
  ⟨"", [], false, false, false, none, []⟩

/-- One step of the component.  `input`: the effect cleanup clears the
scheduled timer; with blank text the effect clears results, `hasSearched`
and `isLoading`; otherwise it schedules a new timer capturing the new
query.  `timerFire`: `performSearch` sets loading/searched flags, clears
the error flag, and dispatches the fetch for the captured query.
`resolveOk`/`resolveErr`: the fetch continuation runs unconditionally for
any dispatched fetch — the code has no generation counter or abort, so a
stale response still calls `setResults`. -/
def stepApp (st : AppState) : AppEvent → AppState
  | .input s =>
    if jsTrim s = "" then
      { st with query := s, pendingTimer := none, results := [],
                hasSearched := false, isLoading := false }
    else
      { st with query := s, pendingTimer := some s }
  | .timerFire =>
    match st.pendingTimer with
    | none => st
    | some q =>
      { st with pendingTimer := none, isLoading := true, error := false,
                hasSearched := true, dispatched := st.dispatched ++ [q] }
  | .resolveOk q payload =>
    if q ∈ st.dispatched then
      { st with results := payload, isLoading := false }
    else st
  | .resolveErr q =>
    if q ∈ st.dispatched then
      { st with error := true, results := [], isLoading := false }
    else st

/-- Run the component from its initial state over an event sequence. -/
def runApp (es : List AppEvent) : AppState :=
  es.foldl stepApp initialAppState

/-! ## Concrete instantiation data

A sample storage-layer matcher and sample collections, used to evaluate
the model at concrete inputs.  `ciContains` is the meaning of the MongoDB
`$regex ... $options: "i"` capability on a pattern that is plain literal
text (no metacharacters): case-insensitive substring containment. -/

/-- Case-insensitive substring containment: the semantics of an
`i`-flagged regex whose pattern is literal text. -/
def ciContains (pat text : List Char) : Bool :=
  (findFirst [pat] text).isSome

/-- A sample product document. -/
def sampleProduct : ProductDoc :=
  ⟨1, "laptop".data, "screen".data, "tech".data, 10⟩

/-- A sample article document. -/
def sampleArticle : ArticleDoc :=
  ⟨2, "mongo".data, "fulltext".data, "amit".data, []⟩

/-- A sample database with one product and one article. -/
def sampleDb : Database :=
  ⟨[sampleProduct], [sampleArticle]⟩

/-- The sample query that matches the sample product only. -/
def qLap : List Char := "lap".data

/-- A query matching no document of `sampleDb`. -/
def qZzz : List Char := "zzz".data

/-- A whitespace-only query string. -/
def qBlank : List Char := "   ".data

/-- A query that is a single term containing a regex metacharacter. -/
def qDot : List Char := ['.']

/-- A one-term query with a metacharacter inside the term. -/
def qADotB : List Char := "a.b".data

/-- The highlighter example text from the repository's seed data. -/
def laptopText : List Char := "Laptop Screen Replacement 15.6 inch".data

/-- The two-term highlighter example query. -/
def laptopQuery : List Char := "laptop screen".data

/-- A query holding a term and a strict superstring of it. -/
def lapLaptopQuery : List Char := "lap laptop".data

/-- A short text matched by both terms of `lapLaptopQuery` at position 0. -/
def laptopsText : List Char := "Laptops".data

/-- A per-source latency assignment of one time unit each. -/
def onesLat : SourceId → Nat := fun _ => 1

/-- Session-model input strings for the concrete traces. -/
def qA : String := "a"

/-- Second session-model input string. -/
def qB : String := "b"

/-- Session-model rapid-typing inputs. -/
def qM : String := "m"

/-- Second rapid-typing input. -/
def qMo : String := "mo"

/-- Final rapid-typing input. -/
def qMon : String := "mon"

/-- First input of the stale-response trace. -/
def qAb : String := "ab"

/-- Superseding input of the stale-response trace. -/
def qAbc : String := "abc"

/-- The stale-response trace: a search for `qAb` is dispatched (its timer
fired), then the input changes to `qAbc` before the fetch resolves. -/
def staleTrace : List AppEvent :=
  [AppEvent.input qAb, AppEvent.timerFire, AppEvent.input qAbc]

/-! ## Lemmas about the stable descending sort -/

theorem mem_insertDescBy {α β : Type} [LinearOrder β] (k : α → β) (a x : α) :
    ∀ l : List α, x ∈ insertDescBy k a l ↔ x = a ∨ x ∈ l := by
  intro l
  induction l with
  | nil => simp [insertDescBy]
  | cons b l ih =>
    by_cases h : k a < k b
    · simp [insertDescBy, h, ih, List.mem_cons]
      tauto
    · simp [insertDescBy, h, List.mem_cons]

theorem pairwise_insertDescBy {α β : Type} [LinearOrder β] (k : α → β) (a : α) :
    ∀ {l : List α}, l.Pairwise (fun x y => k y ≤ k x) →
      (insertDescBy k a l).Pairwise (fun x y => k y ≤ k x) := by
  intro l
  induction l with
  | nil => simp [insertDescBy]
  | cons b l ih =>
    intro h
    rcases List.pairwise_cons.mp h with ⟨h1, h2⟩
    by_cases hab : k a < k b
    · simp only [insertDescBy, if_pos hab]
      refine List.pairwise_cons.mpr ⟨?_, ih h2⟩
      intro y hy
      rcases (mem_insertDescBy k a y l).mp hy with rfl | hyl
      · exact le_of_lt hab
      · exact h1 y hyl
    · simp only [insertDescBy, if_neg hab]
      refine List.pairwise_cons.mpr ⟨?_, h⟩
      intro y hy
      rcases List.mem_cons.mp hy with rfl | hyl
      · exact not_lt.mp hab
      · exact le_trans (h1 y hyl) (not_lt.mp hab)

theorem pairwise_sortDescBy {α β : Type} [LinearOrder β] (k : α → β) :
    ∀ l : List α, (sortDescBy k l).Pairwise (fun x y => k y ≤ k x) := by
  intro l
  induction l with
  | nil => simp [sortDescBy]
  | cons a l ih => exact pairwise_insertDescBy k a ih

theorem mem_sortDescBy {α β : Type} [LinearOrder β] (k : α → β) (x : α) :
    ∀ l : List α, x ∈ sortDescBy k l ↔ x ∈ l := by
  intro l
  induction l with
  | nil => simp [sortDescBy]
  | cons a l ih =>
    simp [sortDescBy, mem_insertDescBy, ih, List.mem_cons]

theorem filter_insertDescBy {α β : Type} [LinearOrder β] (k : α → β)
    (p : α → Bool) (hkey : ∀ x y, p x = true → p y = true → k x = k y) (a : α) :
    ∀ l : List α, (insertDescBy k a l).filter p =
      if p a then a :: l.filter p else l.filter p := by
  intro l
  induction l with
  | nil => cases hpa : p a <;> simp [insertDescBy, List.filter, hpa]
  | cons b l ih =>
    by_cases hab : k a < k b
    · simp only [insertDescBy, if_pos hab, List.filter_cons]
      by_cases hpb : p b
      · by_cases hpa : p a
        · exact absurd hab (by rw [hkey a b hpa hpb]; exact lt_irrefl _)
        · simp [hpb, hpa, ih]
      · simp [hpb, ih]
    · simp only [insertDescBy, if_neg hab, List.filter_cons]

theorem filter_sortDescBy {α β : Type} [LinearOrder β] (k : α → β)
    (p : α → Bool) (hkey : ∀ x y, p x = true → p y = true → k x = k y) :
    ∀ l : List α, (sortDescBy k l).filter p = l.filter p := by
  intro l
  induction l with
  | nil => simp [sortDescBy]
  | cons a l ih =>
    rw [sortDescBy, filter_insertDescBy k p hkey, ih, List.filter_cons]

theorem insertDescBy_of_const {α β : Type} [LinearOrder β] (k : α → β)
    (a : α) (c : β) :
    ∀ l : List α, (∀ x ∈ l, k x = c) → k a = c → insertDescBy k a l = a :: l := by
  intro l hl ha
  cases l with
  | nil => rfl
  | cons b l =>
    have hb : k b = c := hl b (List.mem_cons_self b l)
    have : ¬ k a < k b := by rw [ha, hb]; exact lt_irrefl c
    simp [insertDescBy, this]

theorem sortDescBy_of_const {α β : Type} [LinearOrder β] (k : α → β) (c : β) :
    ∀ l : List α, (∀ x ∈ l, k x = c) → sortDescBy k l = l := by
  intro l
  induction l with
  | nil => intro _; rfl
  | cons a l ih =>
    intro h
    have hl : ∀ x ∈ l, k x = c := fun x hx => h x (List.mem_cons_of_mem a hx)
    rw [sortDescBy, ih hl, insertDescBy_of_const k a c l hl (h a (List.mem_cons_self a l))]

/-! ## Lemmas about escaping -/

theorem noUnescapedMeta_escapeRegExp :
    ∀ s : List Char, noUnescapedMeta (escapeRegExp s) = true := by
  intro s
  induction s with
  | nil => rfl
  | cons c cs ih =>
    by_cases hc : regexSpecialChars.contains c
    · simp only [escapeRegExp, if_pos hc]
      rw [noUnescapedMeta.eq_def]
      simpa using ih
    · have hne : ¬ c = '\\' := by
        intro h
        subst h
        exact hc (by decide)
      simp only [escapeRegExp, if_neg hc]
      rw [noUnescapedMeta.eq_def]
      simp [hne, ih]
      simpa using hc

/-! ## Lemmas about the splitter -/

theorem splitAux_join (terms : List (List Char)) :
    ∀ (fuel : Nat) (text : List Char),
      (splitAux terms fuel text).foldr (· ++ ·) [] = text := by
  intro fuel
  induction fuel with
  | zero => intro text; simp [splitAux]
  | succ fuel ih =>
    intro text
    cases h : findFirst terms text with
    | none => simp [splitAux, h]
    | some it =>
      obtain ⟨i, t⟩ := it
      simp only [splitAux, h, List.foldr_cons, ih]
      have hdrop : text.drop (i + t.length) = (text.drop i).drop t.length :=
        (List.drop_drop t.length i text).symm
      rw [hdrop, List.take_append_drop, List.take_append_drop]

theorem spansJoin_map (g : List Char → Bool) :
    ∀ l : List (List Char),
      spansJoin (l.map (fun part => ⟨part, g part⟩)) = l.foldr (· ++ ·) [] := by
  intro l
  induction l with
  | nil => rfl
  | cons p l ih => simp [spansJoin, List.foldr_cons] at ih ⊢; exact ih

/-! ## Lemmas about `find?` on ordered lists and `findFirst` -/

theorem find?_of_pairwise {α : Type} {R : α → α → Prop} {p : α → Bool} :
    ∀ {l : List α} {t a : α}, l.Pairwise R → l.find? p = some t →
      a ∈ l → p a = true → t = a ∨ R t a := by
  intro l
  induction l with
  | nil => intro t a _ hf; simp [List.find?] at hf
  | cons b l ih =>
    intro t a hp hf ha hpa
    rcases List.pairwise_cons.mp hp with ⟨h1, h2⟩
    by_cases hb : p b
    · rw [List.find?_cons_of_pos _ hb] at hf
      cases hf
      rcases List.mem_cons.mp ha with rfl | hal
      · exact Or.inl rfl
      · exact Or.inr (h1 a hal)
    · rw [List.find?_cons_of_neg _ (by simpa using hb)] at hf
      rcases List.mem_cons.mp ha with rfl | hal
      · exact absurd hpa hb
      · exact ih h2 hf hal hpa

theorem findFirst_maxLen {terms : List (List Char)}
    (hp : terms.Pairwise (fun x y => y.length ≤ x.length)) :
    ∀ {text : List Char} {i : Nat} {t : List Char},
      findFirst terms text = some (i, t) →
      ∀ t2 ∈ terms, t2.isEmpty = false → isPrefixCI t2 (text.drop i) = true →
        t2.length ≤ t.length := by
  intro text
  induction text with
  | nil => intro i t hf; simp [findFirst] at hf
  | cons c rest ih =>
    intro i t hf t2 ht2 hemp hpre
    rw [findFirst] at hf
    cases hfind : terms.find? (fun u => !u.isEmpty && isPrefixCI u (c :: rest)) with
    | some t0 =>
      rw [hfind] at hf
      injection hf with hf
      injection hf with hi ht
      subst hi; subst ht
      rw [List.drop_zero] at hpre
      have hpt2 : (!t2.isEmpty && isPrefixCI t2 (c :: rest)) = true := by
        simp [hemp, hpre]
      rcases find?_of_pairwise hp hfind ht2 hpt2 with rfl | hle
      · exact le_refl _
      · exact hle
    | none =>
      rw [hfind] at hf
      cases hrec : findFirst terms rest with
      | none => rw [hrec] at hf; exact absurd hf (by simp)
      | some it0 =>
        obtain ⟨i0, t0⟩ := it0
        rw [hrec] at hf
        injection hf with hf
        injection hf with hi ht
        subst ht
        subst hi
        rw [List.drop_succ_cons] at hpre
        exact ih hrec t2 ht2 hemp hpre

/-! ## Lemmas about the session controller model -/

theorem dispatched_foldl_inputs :
    ∀ (ss : List String) (st : AppState),
      ((ss.map AppEvent.input).foldl stepApp st).dispatched = st.dispatched := by
  intro ss
  induction ss with
  | nil => intro st; rfl
  | cons s ss ih =>
    intro st
    simp only [List.map_cons, List.foldl_cons]
    rw [ih]
    by_cases h : jsTrim s = "" <;> simp [stepApp, h]

theorem runApp_two_inputs_timer (s1 s2 : String) (h2 : jsTrim s2 ≠ "") :
    runApp [AppEvent.input s1, AppEvent.input s2, AppEvent.timerFire] =
      ⟨s2, [], true, true, false, none, [s2]⟩ := by
  by_cases h1 : jsTrim s1 = "" <;>
    simp [runApp, List.foldl, stepApp, initialAppState, h1, h2]

/-! ## A membership fact about the tokenizer -/

theorem mem_queryTerms_not_empty (q t : List Char) :
    t ∈ queryTerms q → t.isEmpty = false := by
  intro ht
  unfold queryTerms at ht
  have h1 : t ∈ jsTokens q :=
    (mem_sortDescBy (fun u => u.length) t (jsTokens q)).mp ht
  unfold jsTokens at h1
  have h2 := List.mem_filter.mp h1
  simpa using h2.2

/-! ## Claims -/

/-- C1: in the merged result set returned by `globalSearch`, a result with
a strictly higher relevance score appears earlier (the scores are pairwise
non-increasing in output order), and the sort is stable: the subsequence
of results carrying any fixed score is exactly their subsequence in the
merge order (products — the first-registered source — before articles,
each in intra-source order). -/
theorem c1_ranked_sorted_stable :
    ∀ (rmatch : List Char → List Char → Bool) (q : List Char) (db : Database),
      (isBlankQuery (some q) = false →
        (globalSearch rmatch (some q) db).1.results =
          some (rankedResults rmatch q db)) ∧
      (rankedResults rmatch q db).Pairwise
        (fun a b => MergedResult.score b ≤ MergedResult.score a) ∧
      ∀ s : Int,
        (rankedResults rmatch q db).filter (fun r => r.score == s) =
          (mergedResults rmatch q db).filter (fun r => r.score == s) := by
  intro rmatch q db
  refine ⟨?_, ?_, ?_⟩
  · intro hq
    have hq2 : (q.isEmpty || (trimWs q).isEmpty) = false := hq
    by_cases hr : (rankedResults rmatch q db).isEmpty
    · have hrnil : rankedResults rmatch q db = [] := List.isEmpty_iff.mp hr
      simp [globalSearch, hq2, hrnil]
    · simp [globalSearch, hq2, hr]
  · exact pairwise_sortDescBy MergedResult.score (mergedResults rmatch q db)
  · intro s
    exact filter_sortDescBy MergedResult.score (fun r => r.score == s)
      (fun x y hx hy => by rw [eq_of_beq hx, eq_of_beq hy])
      (mergedResults rmatch q db)

/-- Witness for C1: the concrete sample search's response carries exactly
the ranked result list. -/
theorem c1_witness :
    (globalSearch ciContains (some qLap) sampleDb).1.results =
      some (rankedResults ciContains qLap sampleDb) :=
  (c1_ranked_sorted_stable ciContains qLap sampleDb).1 (by decide)

/-- C2: a missing, empty, or whitespace-only query is rejected with HTTP
400, `success: false` and the required-term message, and zero source
queries are dispatched: validation precedes every executor invocation. -/
theorem c2_blank_query_rejected :
    ∀ (rmatch : List Char → List Char → Bool) (q? : Option (List Char))
      (db : Database),
      isBlankQuery q? = true →
      (globalSearch rmatch q? db).1.status = 400 ∧
      (globalSearch rmatch q? db).1.success = false ∧
      (globalSearch rmatch q? db).1.message = some requiredMsg ∧
      (globalSearch rmatch q? db).2 = [] := by
  intro rmatch q? db hq
  cases q? with
  | none => exact ⟨rfl, rfl, rfl, rfl⟩
  | some q =>
    have hq2 : (q.isEmpty || (trimWs q).isEmpty) = true := hq
    simp [globalSearch, hq2]

/-- Witness for C2 on a whitespace-only query. -/
theorem c2_witness :
    (globalSearch ciContains (some qBlank) sampleDb).1.status = 400 ∧
    (globalSearch ciContains (some qBlank) sampleDb).1.success = false ∧
    (globalSearch ciContains (some qBlank) sampleDb).1.message = some requiredMsg ∧
    (globalSearch ciContains (some qBlank) sampleDb).2 = [] :=
  c2_blank_query_rejected ciContains (some qBlank) sampleDb (by decide)

/-- C3 counterexample: with both source latencies equal to one unit the
handler's total latency is two units, which exceeds the latency of the
slowest source, and its dispatch plan is not the single concurrent stage;
the two executors are not invoked concurrently. -/
theorem c3_counterexample :
    globalSearchLatency onesLat = 2 ∧
    ¬ (globalSearchLatency onesLat ≤
        Nat.max (onesLat SourceId.product) (onesLat SourceId.article)) ∧
    dispatchStages ≠ [[SourceId.product, SourceId.article]] := by
  refine ⟨rfl, by decide, by decide⟩

/-- C3 amended: the handler awaits the product query before dispatching
the article query, so the two sources run sequentially and total latency
is the sum of the two source latencies, not the maximum. -/
theorem c3_sequential_dispatch :
    ∀ lat : SourceId → Nat,
      globalSearchLatency lat = lat SourceId.product + lat SourceId.article := by
  intro lat
  simp [globalSearchLatency, dispatchStages, stagesLatency]

/-- C4 counterexample: the search for `qAb` is dispatched (its debounce
timer fired), then the input changes to `qAbc` before the fetch resolves;
when the `qAb` fetch then resolves, its payload still overwrites the
visible results state although `qAb` is no longer the latest input — the
code has no in-flight supersession. -/
theorem c4_counterexample :
    (runApp staleTrace).query = qAbc ∧
    (runApp staleTrace).results = [] ∧
    (runApp (staleTrace ++ [AppEvent.resolveOk qAb [7]])).results = [7] ∧
    qAb ≠ qAbc := by
  refine ⟨by decide, by decide, by decide, by decide⟩

/-- C4 amended: supersession holds only in the debounce window — an input
change before the timer fires cancels the prior pending search, which is
never dispatched, and a never-dispatched query's resolution cannot alter
the results state; once a search has been dispatched, its late result does
update the visible state (see the counterexample). -/
theorem c4_timer_supersession :
    ∀ (s1 s2 : String) (payload : List Nat),
      jsTrim s2 ≠ "" → s1 ≠ s2 →
      (runApp [AppEvent.input s1, AppEvent.input s2,
        AppEvent.timerFire]).dispatched = [s2] ∧
      (runApp ([AppEvent.input s1, AppEvent.input s2, AppEvent.timerFire] ++
        [AppEvent.resolveOk s1 payload])).results =
      (runApp [AppEvent.input s1, AppEvent.input s2,
        AppEvent.timerFire]).results := by
  intro s1 s2 payload h2 hne
  have hrun := runApp_two_inputs_timer s1 s2 h2
  have happ : runApp ([AppEvent.input s1, AppEvent.input s2,
      AppEvent.timerFire] ++ [AppEvent.resolveOk s1 payload]) =
      stepApp (runApp [AppEvent.input s1, AppEvent.input s2,
        AppEvent.timerFire]) (AppEvent.resolveOk s1 payload) := by
    simp [runApp, List.foldl_append]
  constructor
  · rw [hrun]
  · rw [happ, hrun]
    simp [stepApp, hne]

/-- Witness for C4 (amended) on the concrete inputs `a`, then `b`. -/
theorem c4_timer_supersession_witness :
    (runApp [AppEvent.input qA, AppEvent.input qB,
      AppEvent.timerFire]).dispatched = [qB] ∧
    (runApp ([AppEvent.input qA, AppEvent.input qB, AppEvent.timerFire] ++
      [AppEvent.resolveOk qA [3]])).results =
    (runApp [AppEvent.input qA, AppEvent.input qB,
      AppEvent.timerFire]).results :=
  c4_timer_supersession qA qB [3] (by decide) (by decide)

/-- C5 counterexample: for the query consisting of the single term `.` the
backend hands both sources the raw, unescaped pattern `.` — a pattern with
an unescaped metacharacter — although escaping that term is possible and
produces a fully escaped pattern; so escaping does not happen in the
source query executor. -/
theorem c5_counterexample :
    (globalSearch ciContains (some qDot) sampleDb).2 =
      [(SourceId.product, qDot), (SourceId.article, qDot)] ∧
    noUnescapedMeta qDot = false ∧
    noUnescapedMeta (escapeRegExp qDot) = true := by
  refine ⟨by decide, rfl, rfl⟩

/-- C5 amended: the client-side highlighter escapes every whitespace
delimited term of the query before combining them into its match pattern
(every safe term is free of unescaped metacharacters); the backend
executor instead passes the raw query string unescaped as the pattern. -/
theorem c5_highlighter_escapes :
    ∀ q t : List Char, t ∈ safeTerms q → noUnescapedMeta t = true := by
  intro q t ht
  rcases List.mem_map.mp ht with ⟨t0, _, rfl⟩
  exact noUnescapedMeta_escapeRegExp t0

/-- Witness for C5 (amended): the escaped form of the term `a.b`. -/
theorem c5_highlighter_escapes_witness :
    noUnescapedMeta ['a', '\\', '.', 'b'] = true :=
  c5_highlighter_escapes qADotB ['a', '\\', '.', 'b'] (by decide)

/-- C6: the ordered spans the highlighter produces cover the text exactly:
concatenating the span texts in order reconstructs the original text, for
every text and every raw query. -/
theorem c6_spans_cover :
    ∀ text query : List Char, spansJoin (highlightSpans text query) = text := by
  intro text query
  by_cases ht : text.isEmpty
  · have htn : text = [] := List.isEmpty_iff.mp ht
    simp [highlightSpans, ht, spansJoin, htn]
  · by_cases hq : query.isEmpty
    · simp [highlightSpans, ht, hq, spansJoin]
    · by_cases hterms : (queryTerms query).isEmpty
      · simp [highlightSpans, ht, hq, hterms, spansJoin]
      · simp only [highlightSpans, ht, hq, hterms, if_false, Bool.false_eq_true]
        rw [spansJoin_map, splitOnTerms, splitAux_join]

/-- C7: the highlighter sorts the query tokens by descending character
length; at every match position the term it matches has maximal length
among the terms matching there (so a term that is a strict substring of
another present term never truncates the longer one); and on the spec's
example text the two terms are single contiguous case-insensitive match
spans preserving the text's original casing. -/
theorem c7_longest_term_preferred :
    (∀ q : List Char,
      (queryTerms q).Pairwise (fun a b => b.length ≤ a.length)) ∧
    (∀ (q text : List Char) (i : Nat) (t : List Char),
      findFirst (queryTerms q) text = some (i, t) →
      ∀ t2 ∈ queryTerms q, isPrefixCI t2 (text.drop i) = true →
        t2.length ≤ t.length) ∧
    highlightSpans laptopText laptopQuery =
      [⟨[], false⟩, ⟨"Laptop".data, true⟩, ⟨" ".data, false⟩,
       ⟨"Screen".data, true⟩, ⟨" Replacement 15.6 inch".data, false⟩] := by
  refine ⟨?_, ?_, ?_⟩
  · intro q
    exact pairwise_sortDescBy (fun t => t.length) (jsTokens q)
  · intro q text i t hf t2 ht2 hpre
    have hemp : t2.isEmpty = false := mem_queryTerms_not_empty q t2 ht2
    exact findFirst_maxLen (pairwise_sortDescBy (fun u => u.length) (jsTokens q))
      hf t2 ht2 hemp hpre
  · decide

/-- Witness for C7: with both `lap` and `laptop` in the query, the term
matched at position 0 of `Laptops` is `laptop`, and the competing shorter
term satisfies the length bound. -/
theorem c7_witness :
    ("lap".data).length ≤ ("laptop".data).length :=
  c7_longest_term_preferred.2.1 lapLaptopQuery laptopsText 0 ("laptop".data)
    (by decide) ("lap".data) (by decide) (by decide)

/-- C8: any burst of non-empty input changes with no timer expiry between
them leaves exactly the last value scheduled (each input change cancels
the previously scheduled debounce timer) and dispatches nothing; when the
debounce timer then fires, exactly one search is dispatched and it is for
the final input value. -/
theorem c8_debounce_single_dispatch :
    ∀ (ss : List String) (s : String),
      (∀ t ∈ ss, jsTrim t ≠ "") → jsTrim s ≠ "" →
      (runApp ((ss ++ [s]).map AppEvent.input)).pendingTimer = some s ∧
      (runApp ((ss ++ [s]).map AppEvent.input)).dispatched = [] ∧
      (runApp (((ss ++ [s]).map AppEvent.input) ++
        [AppEvent.timerFire])).dispatched = [s] := by
  intro ss s _ hs
  have hsplit : runApp ((ss ++ [s]).map AppEvent.input) =
      stepApp ((ss.map AppEvent.input).foldl stepApp initialAppState)
        (AppEvent.input s) := by
    simp [runApp, List.map_append, List.foldl_append]
  have hstep : stepApp ((ss.map AppEvent.input).foldl stepApp initialAppState)
      (AppEvent.input s) =
      { (ss.map AppEvent.input).foldl stepApp initialAppState with
          query := s, pendingTimer := some s } := by
    simp [stepApp, hs]
  have hdisp : ((ss.map AppEvent.input).foldl stepApp
      initialAppState).dispatched = [] :=
    dispatched_foldl_inputs ss initialAppState
  refine ⟨?_, ?_, ?_⟩
  · rw [hsplit, hstep]
  · rw [hsplit, hstep]
    exact hdisp
  · have h2 : runApp (((ss ++ [s]).map AppEvent.input) ++
        [AppEvent.timerFire]) =
        stepApp (runApp ((ss ++ [s]).map AppEvent.input))
          AppEvent.timerFire := by
      simp [runApp, List.foldl_append]
    rw [h2, hsplit, hstep]
    simp [stepApp, hdisp]

/-- Witness for C8 on the rapid inputs `m`, `mo`, `mon`. -/
theorem c8_witness :
    (runApp (([qM, qMo] ++ [qMon]).map AppEvent.input)).pendingTimer =
      some qMon ∧
    (runApp (([qM, qMo] ++ [qMon]).map AppEvent.input)).dispatched = [] ∧
    (runApp ((([qM, qMo] ++ [qMon]).map AppEvent.input) ++
      [AppEvent.timerFire])).dispatched = [qMon] :=
  c8_debounce_single_dispatch [qM, qMo] qMon (by decide) (by decide)

/-- C9 counterexample: for the valid query `zzz`, which matches zero
records in every source of the sample database, the handler does return
HTTP 200 with success, count 0 and an empty results array — but the body
omits the `query` field, so it does not have the documented shape that
includes `query: string`. -/
theorem c9_counterexample :
    (globalSearch ciContains (some qZzz) sampleDb).1.status = 200 ∧
    (globalSearch ciContains (some qZzz) sampleDb).1.success = true ∧
    (globalSearch ciContains (some qZzz) sampleDb).1.count = some 0 ∧
    (globalSearch ciContains (some qZzz) sampleDb).1.results = some [] ∧
    (globalSearch ciContains (some qZzz) sampleDb).1.query = none := by
  refine ⟨by decide, by decide, by decide, by decide, by decide⟩

/-- C9 amended: a valid query matching zero records in every source yields
HTTP 200 with success true, count 0, a not-found message and an empty
results array — zero results is never an error — but this zero-result body
omits the `query` field. -/
theorem c9_zero_results_success :
    ∀ (rmatch : List Char → List Char → Bool) (q : List Char) (db : Database),
      isBlankQuery (some q) = false →
      findProducts rmatch q db = [] →
      findArticles rmatch q db = [] →
      (globalSearch rmatch (some q) db).1 =
        ⟨200, true, some 0, none, some (noResultsMsg q), some []⟩ := by
  intro rmatch q db hq hp ha
  have hq2 : (q.isEmpty || (trimWs q).isEmpty) = false := hq
  have hm : mergedResults rmatch q db = [] := by
    simp [mergedResults, hp, ha]
  have hr : rankedResults rmatch q db = [] := by
    simp [rankedResults, hm, sortDescBy]
  simp [globalSearch, hq2, hr]

/-- Witness for C9 (amended) at the concrete no-match query. -/
theorem c9_witness :
    (globalSearch ciContains (some qZzz) sampleDb).1 =
      ⟨200, true, some 0, none, some (noResultsMsg qZzz), some []⟩ :=
  c9_zero_results_success ciContains qZzz sampleDb
    (by decide) (by decide) (by decide)

/-- C10: the regex executors' projections return no score field, so after
the `?? 0` defaulting every merged result's score is exactly 0; the score
sort is then the identity, and the ranked output is always all matching
products in collection order followed by all matching articles in
collection order. -/
theorem c10_all_scores_zero :
    ∀ (rmatch : List Char → List Char → Bool) (q : List Char) (db : Database),
      (∀ r ∈ mergedResults rmatch q db, MergedResult.score r = 0) ∧
      rankedResults rmatch q db =
        (db.products.filter (matchProduct rmatch q)).map
          (fun p => toProductResult (projectProduct p)) ++
        (db.articles.filter (matchArticle rmatch q)).map
          (fun a => toArticleResult (projectArticle a)) := by
  intro rmatch q db
  have hz : ∀ r ∈ mergedResults rmatch q db, MergedResult.score r = 0 := by
    intro r hr
    simp only [mergedResults] at hr
    rcases List.mem_append.mp hr with h | h
    · rcases List.mem_map.mp h with ⟨x, hx, rfl⟩
      simp only [findProducts] at hx
      rcases List.mem_map.mp hx with ⟨p, _, rfl⟩
      rfl
    · rcases List.mem_map.mp h with ⟨x, hx, rfl⟩
      simp only [findArticles] at hx
      rcases List.mem_map.mp hx with ⟨a, _, rfl⟩
      rfl
  refine ⟨hz, ?_⟩
  have hid : rankedResults rmatch q db = mergedResults rmatch q db :=
    sortDescBy_of_const MergedResult.score 0 (mergedResults rmatch q db) hz
  rw [hid]
  simp only [mergedResults, findProducts, findArticles, List.map_map]
  rfl

/-- Witness for C10: the sample product's merged entry has score 0 and the
concrete ranked output equals the concatenation of the two filtered,
projected collections. -/
theorem c10_witness :
    MergedResult.score (toProductResult (projectProduct sampleProduct)) = 0 ∧
    rankedResults ciContains qLap sampleDb =
      (sampleDb.products.filter (matchProduct ciContains qLap)).map
        (fun p => toProductResult (projectProduct p)) ++
      (sampleDb.articles.filter (matchArticle ciContains qLap)).map
        (fun a => toArticleResult (projectArticle a)) :=
  ⟨(c10_all_scores_zero ciContains qLap sampleDb).1
      (toProductResult (projectProduct sampleProduct)) (by decide),
    (c10_all_scores_zero ciContains qLap sampleDb).2⟩
